import Mathlib

/-!
# Verification of the halfbrown adaptive hash map

A shallow embedding of `src/lib.rs` and `src/entry.rs` of the halfbrown
crate: a map that stores few entries in a linear vector backend (`VecMap`)
and migrates, inside `insert`, to a hash-table backend (`HashBrown`) once
the vector holds `VEC_LIMIT_UPPER` (32) entries.

The two backing stores are not part of the provided sources:
`src/vecmap.rs` is a module of this crate that is absent, and the hash
table is the external `hashbrown` crate, which the specification treats as
a supplied building block with a stated contract (§4.3).  Both are
modelled from the specification as association lists with unique keys;
every operation of the dispatcher (`HashMap`) is translated directly from
`lib.rs`/`entry.rs`.

Rust panics and `unreachable!()` arms are modelled by `Option`-valued
results (`none` = the unreachable/panicking arm was hit); `Index::index`,
which panics with a message, returns `Except String`.
-/

set_option linter.unusedSectionVars false
set_option synthInstance.maxSize 512

namespace Halfbrown

/-- Maximum number of elements before the representation is swapped from
Vec to `HashMap` (`VEC_LIMIT_UPPER` in `lib.rs`). -/
def VEC_LIMIT_UPPER : Nat := 32

variable {K V : Type} [DecidableEq K] [DecidableEq V]

/-- Association-list lookup: value stored at the first pair whose key is `k`. -/
def assocGet : List (K × V) → K → Option V
  | [], _ => none
  | (k', v') :: rest, k => if k' = k then some v' else assocGet rest k

/-- Overwrite the value at the first pair whose key is `k`, keeping the
stored key (the Rust maps do not replace the key on `insert`). -/
def assocUpdate : List (K × V) → K → V → List (K × V)
  | [], _, _ => []
  | (k', v') :: rest, k, v =>
      if k' = k then (k', v) :: rest else (k', v') :: assocUpdate rest k v

/-- Remove the first pair whose key is `k`. -/
def assocRemove : List (K × V) → K → List (K × V)
  | [], _ => []
  | (k', v') :: rest, k => if k' = k then rest else (k', v') :: assocRemove rest k

/-- Apply `f` to the value at the first pair whose key is `k`. -/
def assocModify : List (K × V) → K → (V → V) → List (K × V)
  | [], _, _ => []
  | (k', v') :: rest, k, f =>
      if k' = k then (k', f v') :: rest else (k', v') :: assocModify rest k f

/-- The keys of an association list, in storage order. -/
def keysOf (l : List (K × V)) : List K := l.map Prod.fst

/-- Unique-keys invariant of a backend store. -/
def uniqKeys (l : List (K × V)) : Prop := (keysOf l).Nodup

instance (l : List (K × V)) : Decidable (uniqKeys l) := by
  unfold uniqKeys; infer_instance

/-- Modelled from the spec: the linear backend `VecMap` (`src/vecmap.rs` is
not in `src/`).  §4.2: an ordered sequence of unique (key, value) pairs,
searched by equality-based linear scan. -/
structure VecMap (K V : Type) where
  pairs : List (K × V)
deriving DecidableEq

/-- Modelled from the spec: `VecMap::new` creates the empty sequence. -/
def VecMap.new : VecMap K V := ⟨[]⟩

/-- Modelled from the spec: `VecMap::with_capacity` creates the empty
sequence (capacity is an allocation detail, not modelled). -/
def VecMap.with_capacity (_capacity : Nat) : VecMap K V := ⟨[]⟩

/-- Modelled from the spec: `VecMap::len`. -/
def VecMap.len (m : VecMap K V) : Nat := m.pairs.length

/-- Modelled from the spec: `VecMap::get`, an equality-based linear scan. -/
def VecMap.get (m : VecMap K V) (k : K) : Option V := assocGet m.pairs k

/-- Modelled from the spec (§4.2): `VecMap::insert` scans for an existing
key; if found, overwrites the value in place (keeping the stored key) and
returns the old value; else appends. -/
def VecMap.insert (m : VecMap K V) (k : K) (v : V) : Option V × VecMap K V :=
  match m.get k with
  | some old => (some old, ⟨assocUpdate m.pairs k v⟩)
  | none => (none, ⟨m.pairs ++ [(k, v)]⟩)

/-- Modelled from the spec: `VecMap::insert_nocheck` appends without the
duplicate-key scan. -/
def VecMap.insert_nocheck (m : VecMap K V) (k : K) (v : V) : VecMap K V :=
  ⟨m.pairs ++ [(k, v)]⟩

/-- Modelled from the spec: `VecMap::remove` scans and removes on match. -/
def VecMap.remove (m : VecMap K V) (k : K) : Option V × VecMap K V :=
  match m.get k with
  | some old => (some old, ⟨assocRemove m.pairs k⟩)
  | none => (none, m)

/-- Modelled from the spec: `VecMap::retain` keeps exactly the pairs
satisfying the predicate. -/
def VecMap.retain (m : VecMap K V) (f : K → V → Bool) : VecMap K V :=
  ⟨m.pairs.filter (fun p => f p.1 p.2)⟩

/-- Modelled from the spec: `VecMap::clear` empties the sequence. -/
def VecMap.clear (_m : VecMap K V) : VecMap K V := ⟨[]⟩

/-- Modelled from the spec (§4.3): the external `hashbrown` hash table,
used through its stated contract only (get/insert/remove/entry/iterate);
represented by its list of stored pairs. -/
structure HashBrown (K V : Type) where
  pairs : List (K × V)
deriving DecidableEq

/-- Modelled from the spec: an empty hash table (`HashBrown::with_hasher`,
hashers carry no observable behaviour in the model). -/
def HashBrown.empty : HashBrown K V := ⟨[]⟩

/-- Modelled from the spec: `HashBrown::with_capacity_and_hasher`
(capacity is an allocation detail, not modelled). -/
def HashBrown.with_capacity (_capacity : Nat) : HashBrown K V := ⟨[]⟩

/-- Modelled from the spec: hash-table lookup. -/
def HashBrown.get (m : HashBrown K V) (k : K) : Option V := assocGet m.pairs k

/-- Modelled from the spec: `HashBrown::len`. -/
def HashBrown.len (m : HashBrown K V) : Nat := m.pairs.length

/-- Modelled from the spec: hash-table insert — overwrites the value
(keeping the stored key, as Rust's hash maps document) and returns the old
value, or stores a new pair. -/
def HashBrown.insert (m : HashBrown K V) (k : K) (v : V) : Option V × HashBrown K V :=
  match m.get k with
  | some old => (some old, ⟨assocUpdate m.pairs k v⟩)
  | none => (none, ⟨m.pairs ++ [(k, v)]⟩)

/-- Modelled from the spec: hash-table remove. -/
def HashBrown.remove (m : HashBrown K V) (k : K) : Option V × HashBrown K V :=
  match m.get k with
  | some old => (some old, ⟨assocRemove m.pairs k⟩)
  | none => (none, m)

/-- Modelled from the spec: hash-table retain. -/
def HashBrown.retain (m : HashBrown K V) (f : K → V → Bool) : HashBrown K V :=
  ⟨m.pairs.filter (fun p => f p.1 p.2)⟩

/-- Modelled from the spec: hash-table clear. -/
def HashBrown.clear (_m : HashBrown K V) : HashBrown K V := ⟨[]⟩

/-- Modelled from the spec: `FromIterator` for the hash table
(`m.drain().collect()` in `HashMap::insert`) inserts every drained pair in
order into an empty table. -/
def HashBrown.ofList (l : List (K × V)) : HashBrown K V :=
  l.foldl (fun acc p => (acc.insert p.1 p.2).2) HashBrown.empty

/-- The internal tagged state of the container (`HashMapInt` in `lib.rs`):
hash backend, vector backend, or the transient migration placeholder. -/
inductive HashMapInt (K V : Type) where
  | Map (m : HashBrown K V)
  | Vec (m : VecMap K V)
  | None
deriving DecidableEq

/-- The pairs stored by the active backend; `none` on the placeholder
state (whose match arms in the source are `unreachable!()`). -/
def HashMapInt.pairsOf : HashMapInt K V → Option (List (K × V))
  | .Map m => some m.pairs
  | .Vec m => some m.pairs
  | .None => none

/-- The dispatcher `HashMap(HashMapInt)` of `lib.rs` (the hasher type
parameter `S` has no observable behaviour and is not modelled). -/
structure HashMap (K V : Type) where
  int : HashMapInt K V
deriving DecidableEq

/-- `HashMap::new`: an empty vector backend. -/
def HashMap.new : HashMap K V := ⟨.Vec VecMap.new⟩

/-- `HashMap::with_capacity`: hash backend when `capacity > VEC_LIMIT_UPPER`,
else vector backend. -/
def HashMap.with_capacity (capacity : Nat) : HashMap K V :=
  ⟨if capacity > VEC_LIMIT_UPPER then .Map (HashBrown.with_capacity capacity)
    else .Vec (VecMap.with_capacity capacity)⟩

/-- `HashMap::vec_with_capacity`: always the vector backend. -/
def HashMap.vec_with_capacity (capacity : Nat) : HashMap K V :=
  ⟨.Vec (VecMap.with_capacity capacity)⟩

/-- `HashMap::with_hasher`: always the hash backend (`lib.rs` line 184). -/
def HashMap.with_hasher : HashMap K V := ⟨.Map HashBrown.empty⟩

/-- `HashMap::with_capacity_and_hasher`: always the hash backend,
regardless of the capacity (`lib.rs` lines 209-214). -/
def HashMap.with_capacity_and_hasher (capacity : Nat) : HashMap K V :=
  ⟨.Map (HashBrown.with_capacity capacity)⟩

/-- `HashMap::len`; `none` models the `unreachable!()` arm. -/
def HashMap.lenOp (m : HashMap K V) : Option Nat :=
  match m.int with
  | .Map hb => some hb.len
  | .Vec vm => some vm.len
  | .None => none

/-- `HashMap::is_empty`. -/
def HashMap.is_empty (m : HashMap K V) : Option Bool :=
  match m.int with
  | .Map hb => some (hb.pairs.isEmpty)
  | .Vec vm => some (vm.pairs.isEmpty)
  | .None => none

/-- `HashMap::get`; outer `none` models the `unreachable!()` arm, the
inner option is the lookup result. -/
def HashMap.getOp (m : HashMap K V) (k : K) : Option (Option V) :=
  match m.int with
  | .Map hb => some (hb.get k)
  | .Vec vm => some (vm.get k)
  | .None => none

/-- `HashMap::contains_key`. -/
def HashMap.contains_key (m : HashMap K V) (k : K) : Option Bool :=
  (m.getOp k).map Option.isSome

/-- `HashMap::is_map`. -/
def HashMap.is_map (m : HashMap K V) : Option Bool :=
  match m.int with
  | .Map _ => some true
  | .Vec _ => some false
  | .None => none

/-- `HashMap::is_vec`. -/
def HashMap.is_vec (m : HashMap K V) : Option Bool :=
  match m.int with
  | .Map _ => some false
  | .Vec _ => some true
  | .None => none

/-- `HashMap::insert` (`lib.rs` lines 711-735): delegate when the backend
is the hash table; on the vector backend, if `len >= VEC_LIMIT_UPPER`
first migrate — drain the vector, collect into a hash table, install it —
then insert into the new table; otherwise insert into the vector. -/
def HashMap.insert (m : HashMap K V) (k : K) (v : V) :
    Option (Option V × HashMap K V) :=
  match m.int with
  | .Map hb =>
      let r := hb.insert k v
      some (r.1, ⟨.Map r.2⟩)
  | .Vec vm =>
      if vm.len ≥ VEC_LIMIT_UPPER then
        let m1 := HashBrown.ofList vm.pairs
        let r := m1.insert k v
        some (r.1, ⟨.Map r.2⟩)
      else
        let r := vm.insert k v
        some (r.1, ⟨.Vec r.2⟩)
  | .None => none

/-- `HashMap::insert_nocheck`: the vector fast path appends unchecked; on
the hash backend it falls back to the checked insert. -/
def HashMap.insert_nocheck (m : HashMap K V) (k : K) (v : V) :
    Option (HashMap K V) :=
  match m.int with
  | .Map hb => some ⟨.Map (hb.insert k v).2⟩
  | .Vec vm => some ⟨.Vec (vm.insert_nocheck k v)⟩
  | .None => none

/-- `HashMap::remove` (`lib.rs` lines 758-768): delegate. -/
def HashMap.remove (m : HashMap K V) (k : K) :
    Option (Option V × HashMap K V) :=
  match m.int with
  | .Map hb =>
      let r := hb.remove k
      some (r.1, ⟨.Map r.2⟩)
  | .Vec vm =>
      let r := vm.remove k
      some (r.1, ⟨.Vec r.2⟩)
  | .None => none

/-- `HashMap::retain` (`lib.rs` lines 785-794): delegate. -/
def HashMap.retain (m : HashMap K V) (f : K → V → Bool) :
    Option (HashMap K V) :=
  match m.int with
  | .Map hb => some ⟨.Map (hb.retain f)⟩
  | .Vec vm => some ⟨.Vec (vm.retain f)⟩
  | .None => none

/-- `HashMap::clear`: delegate; the backend is kept. -/
def HashMap.clear (m : HashMap K V) : Option (HashMap K V) :=
  match m.int with
  | .Map hb => some ⟨.Map hb.clear⟩
  | .Vec vm => some ⟨.Vec vm.clear⟩
  | .None => none

/-- `HashMap::drain` observed through consuming `n` elements and then
dropping the iterator: the yielded prefix, and the container after the
drop — the same backend, emptied (both backend drains clear all remaining
pairs when dropped). -/
def HashMap.drain_take (m : HashMap K V) (n : Nat) :
    Option (List (K × V) × HashMap K V) :=
  match m.int with
  | .Map hb => some (hb.pairs.take n, ⟨.Map hb.clear⟩)
  | .Vec vm => some (vm.pairs.take n, ⟨.Vec vm.clear⟩)
  | .None => none

/-- `PartialEq::eq` (`lib.rs` lines 920-934): equal lengths, and every
pair of `self` is found in `other` with an equal value. -/
def HashMap.beq (a b : HashMap K V) : Option Bool :=
  match a.int.pairsOf, b.int.pairsOf with
  | some pa, some pb =>
      some (decide (pa.length = pb.length) &&
        pa.all (fun p => match assocGet pb p.1 with
          | some v2 => decide (p.2 = v2)
          | none => false))
  | _, _ => none

/-- `Index::index` (`lib.rs` lines 845-847): `get(key)` followed by
`expect("no entry found for key")`; the panic is an `Except.error`. -/
def HashMap.index (m : HashMap K V) (k : K) : Option (Except String V) :=
  (m.getOp k).map (fun r =>
    match r with
    | some v => Except.ok v
    | none => Except.error "no entry found for key")

/-- An occupied entry handle (`OccupiedEntryInt` of `entry.rs`): the inner
backend tag with the looked-up key and the borrowed backend.  The spec's
linear handle stores the found index; keys being unique, the key
determines the same pair. -/
inductive OccupiedEntry (K V : Type) where
  | Map (k : K) (m : HashBrown K V)
  | Vec (k : K) (m : VecMap K V)
deriving DecidableEq

/-- A vacant entry handle (`VacantEntryInt` of `entry.rs`): the inner
backend tag with the captured key and the borrowed backend. -/
inductive VacantEntry (K V : Type) where
  | Map (k : K) (m : HashBrown K V)
  | Vec (k : K) (m : VecMap K V)
deriving DecidableEq

/-- `Entry` of `entry.rs`: occupied or vacant. -/
inductive Entry (K V : Type) where
  | Occupied (e : OccupiedEntry K V)
  | Vacant (e : VacantEntry K V)
deriving DecidableEq

/-- Whether an entry is the `Occupied` variant. -/
def Entry.isOccupied : Entry K V → Bool
  | .Occupied _ => true
  | .Vacant _ => false

/-- `Entry::and_modify` (`entry.rs` lines 130-141): if occupied, apply `f`
to the value in place (through `get_mut`) and stay occupied; if vacant,
pass through unchanged. -/
def Entry.and_modify (e : Entry K V) (f : V → V) : Entry K V :=
  match e with
  | .Occupied (.Map k m) => .Occupied (.Map k ⟨assocModify m.pairs k f⟩)
  | .Occupied (.Vec k m) => .Occupied (.Vec k ⟨assocModify m.pairs k f⟩)
  | .Vacant e => .Vacant e

/-- `Entry::or_insert` (`entry.rs` lines 53-62): occupied → `into_mut`,
the stored value, container unchanged; vacant → insert the default into
the handle's slot.  The observable outcome is the referenced value and the
resulting container state; `none` models a handle over a slot that no
longer holds its key (never created by `HashMap::entry`). -/
def Entry.or_insert (e : Entry K V) (d : V) : Option (V × HashMapInt K V) :=
  match e with
  | .Occupied (.Map k m) => (m.get k).map (fun v => (v, .Map m))
  | .Occupied (.Vec k m) => (m.get k).map (fun v => (v, .Vec m))
  | .Vacant (.Map k m) => some (d, .Map ⟨m.pairs ++ [(k, d)]⟩)
  | .Vacant (.Vec k m) => some (d, .Vec ⟨m.pairs ++ [(k, d)]⟩)

/-- `HashMap::entry` (`lib.rs` lines 579-585): delegate to the active
backend; its entry search yields an occupied handle when the key is found
and a vacant handle otherwise. -/
def HashMap.entry (m : HashMap K V) (k : K) : Option (Entry K V) :=
  match m.int with
  | .Map hb =>
      some (if (hb.get k).isSome then .Occupied (.Map k hb) else .Vacant (.Map k hb))
  | .Vec vm =>
      some (if (vm.get k).isSome then .Occupied (.Vec k vm) else .Vacant (.Vec k vm))
  | .None => none

/-- The composite `map.entry(k).or_insert(d)`. -/
def HashMap.entry_or_insert (m : HashMap K V) (k : K) (d : V) :
    Option (V × HashMap K V) :=
  (m.entry k).bind (fun e => (e.or_insert d).map (fun p => (p.1, ⟨p.2⟩)))

/-- The composite idiom `map.entry(k).and_modify(f).or_insert(d)`. -/
def HashMap.entry_and_modify_or_insert (m : HashMap K V) (k : K)
    (f : V → V) (d : V) : Option (V × HashMap K V) :=
  (m.entry k).bind (fun e => ((e.and_modify f).or_insert d).map (fun p => (p.1, ⟨p.2⟩)))

/-- The container is in a concrete backend state, not the transient
migration placeholder. -/
def HashMap.ok (m : HashMap K V) : Prop := m.int ≠ HashMapInt.None

instance (m : HashMap K V) : Decidable m.ok := by
  unfold HashMap.ok; infer_instance

/-- Well-formed container: a concrete backend whose stored keys are
unique. -/
def HashMap.wf (m : HashMap K V) : Prop :=
  match m.int with
  | .Map hb => uniqKeys hb.pairs
  | .Vec vm => uniqKeys vm.pairs
  | .None => False

instance (m : HashMap K V) : Decidable m.wf := by
  unfold HashMap.wf
  cases m.int <;> simp <;> infer_instance

/-- One public mutating operation of the dispatcher, applied successfully
(the step relation of the container's lifecycle). -/
inductive Step : HashMap K V → HashMap K V → Prop where
  | insert {m : HashMap K V} (k : K) (v : V) (r : Option V) {m' : HashMap K V} :
      m.insert k v = some (r, m') → Step m m'
  | insert_nocheck {m : HashMap K V} (k : K) (v : V) {m' : HashMap K V} :
      m.insert_nocheck k v = some m' → Step m m'
  | remove {m : HashMap K V} (k : K) (r : Option V) {m' : HashMap K V} :
      m.remove k = some (r, m') → Step m m'
  | retain {m : HashMap K V} (f : K → V → Bool) {m' : HashMap K V} :
      m.retain f = some m' → Step m m'
  | clear {m : HashMap K V} {m' : HashMap K V} :
      m.clear = some m' → Step m m'
  | drain {m : HashMap K V} (n : Nat) (ys : List (K × V)) {m' : HashMap K V} :
      m.drain_take n = some (ys, m') → Step m m'
  | entry_or_insert {m : HashMap K V} (k : K) (d : V) (v : V) {m' : HashMap K V} :
      m.entry_or_insert k d = some (v, m') → Step m m'
  | entry_and_modify_or_insert {m : HashMap K V} (k : K) (f : V → V) (d : V)
      (v : V) {m' : HashMap K V} :
      m.entry_and_modify_or_insert k f d = some (v, m') → Step m m'

/-- The states produced by the public constructors. -/
inductive Init : HashMap K V → Prop where
  | new : Init HashMap.new
  | with_capacity (c : Nat) : Init (HashMap.with_capacity c)
  | vec_with_capacity (c : Nat) : Init (HashMap.vec_with_capacity c)
  | with_hasher : Init HashMap.with_hasher
  | with_capacity_and_hasher (c : Nat) : Init (HashMap.with_capacity_and_hasher c)

/-- A container state reachable through public constructors and
operations. -/
inductive Reachable : HashMap K V → Prop where
  | init (m : HashMap K V) : Init m → Reachable m
  | step (m m' : HashMap K V) : Reachable m → Step m m' → Reachable m'

/-- Fold `insert` over a list of pairs (used to build concrete states). -/
def insertAll (m : HashMap K V) : List (K × V) → Option (HashMap K V)
  | [] => some m
  | p :: rest => (m.insert p.1 p.2).bind (fun r => insertAll r.2 rest)

/-- Fold `insert_nocheck` over a list of pairs. -/
def insertAllNocheck (m : HashMap K V) : List (K × V) → Option (HashMap K V)
  | [] => some m
  | p :: rest => (m.insert_nocheck p.1 p.2).bind (fun r => insertAllNocheck r rest)

@[simp]
theorem assocGet_nil (k : K) : assocGet ([] : List (K × V)) k = none := rfl

@[simp]
theorem assocGet_cons (k' : K) (v' : V) (l : List (K × V)) (k : K) :
    assocGet ((k', v') :: l) k = if k' = k then some v' else assocGet l k := rfl

@[simp]
theorem keysOf_nil : keysOf ([] : List (K × V)) = [] := rfl

@[simp]
theorem keysOf_cons (k' : K) (v' : V) (l : List (K × V)) :
    keysOf ((k', v') :: l) = k' :: keysOf l := rfl

theorem assocGet_eq_none_iff (l : List (K × V)) (k : K) :
    assocGet l k = none ↔ k ∉ keysOf l := by
  induction l with
  | nil => simp
  | cons p rest ih =>
    obtain ⟨k', v'⟩ := p
    by_cases h : k' = k
    · simp [h]
    · simp [h, ih]
      intro _ hk
      exact h hk.symm

theorem assocGet_append_of_none (l₁ l₂ : List (K × V)) (k : K)
    (h : assocGet l₁ k = none) : assocGet (l₁ ++ l₂) k = assocGet l₂ k := by
  induction l₁ with
  | nil => simp
  | cons p rest ih =>
    obtain ⟨k', v'⟩ := p
    by_cases hk : k' = k
    · simp [hk] at h
    · simp [hk] at h ⊢
      exact ih h

theorem assocGet_append_of_some (l₁ l₂ : List (K × V)) (k : K) (v : V)
    (h : assocGet l₁ k = some v) : assocGet (l₁ ++ l₂) k = some v := by
  induction l₁ with
  | nil => simp at h
  | cons p rest ih =>
    obtain ⟨k', v'⟩ := p
    by_cases hk : k' = k
    · simp [hk] at h ⊢; exact h
    · simp [hk] at h ⊢
      exact ih h

theorem assocGet_update_self (l : List (K × V)) (k : K) (v : V) :
    assocGet (assocUpdate l k v) k = (assocGet l k).map (fun _ => v) := by
  induction l with
  | nil => simp [assocUpdate]
  | cons p rest ih =>
    obtain ⟨k', v'⟩ := p
    by_cases hk : k' = k <;> simp [assocUpdate, hk, ih]

theorem keysOf_update (l : List (K × V)) (k : K) (v : V) :
    keysOf (assocUpdate l k v) = keysOf l := by
  induction l with
  | nil => simp [assocUpdate]
  | cons p rest ih =>
    obtain ⟨k', v'⟩ := p
    by_cases hk : k' = k <;> simp [assocUpdate, hk, ih]

theorem length_assocUpdate (l : List (K × V)) (k : K) (v : V) :
    (assocUpdate l k v).length = l.length := by
  induction l with
  | nil => simp [assocUpdate]
  | cons p rest ih =>
    obtain ⟨k', v'⟩ := p
    by_cases hk : k' = k <;> simp [assocUpdate, hk, ih]

theorem assocGet_modify_self (l : List (K × V)) (k : K) (f : V → V) :
    assocGet (assocModify l k f) k = (assocGet l k).map f := by
  induction l with
  | nil => simp [assocModify]
  | cons p rest ih =>
    obtain ⟨k', v'⟩ := p
    by_cases hk : k' = k <;> simp [assocModify, hk, ih]

theorem assocGet_update_eq (l : List (K × V)) (k : K) (v old : V)
    (h : assocGet l k = some old) : assocGet (assocUpdate l k v) k = some v := by
  rw [assocGet_update_self, h]
  rfl

theorem assocGet_append_single (l : List (K × V)) (k : K) (v : V)
    (h : assocGet l k = none) : assocGet (l ++ [(k, v)]) k = some v := by
  rw [assocGet_append_of_none l _ k h]
  simp

theorem assocGet_mem (l : List (K × V)) (k : K) (v : V)
    (h : assocGet l k = some v) : (k, v) ∈ l := by
  induction l with
  | nil => simp at h
  | cons p rest ih =>
    obtain ⟨k', v'⟩ := p
    by_cases hk : k' = k
    · simp [hk] at h
      simp [hk, h]
    · simp [hk] at h
      simp [ih h]

theorem assocGet_of_mem (l : List (K × V)) (k : K) (v : V)
    (hu : uniqKeys l) (h : (k, v) ∈ l) : assocGet l k = some v := by
  induction l with
  | nil => simp at h
  | cons p rest ih =>
    obtain ⟨k', v'⟩ := p
    have hu' : k' ∉ keysOf rest ∧ uniqKeys rest := by
      simpa [uniqKeys, List.nodup_cons] using hu
    rcases List.mem_cons.mp h with h1 | h1
    · obtain ⟨rfl, rfl⟩ := Prod.mk.injEq .. ▸ h1
      simp
    · by_cases hk : k' = k
      · subst hk
        exact absurd (List.mem_map.mpr ⟨(k', v), h1, rfl⟩) hu'.1
      · simpa [hk] using ih hu'.2 h1

theorem mem_keysOf_iff (l : List (K × V)) (k : K) :
    k ∈ keysOf l ↔ ∃ v, (k, v) ∈ l := by
  constructor
  · intro h
    obtain ⟨p, hp, hpk⟩ := List.mem_map.mp h
    exact ⟨p.2, by simpa [← hpk] using hp⟩
  · rintro ⟨v, hv⟩
    exact List.mem_map.mpr ⟨(k, v), hv, rfl⟩

theorem uniqKeys_update (l : List (K × V)) (k : K) (v : V)
    (hu : uniqKeys l) : uniqKeys (assocUpdate l k v) := by
  unfold uniqKeys
  rw [keysOf_update]
  exact hu

theorem uniqKeys_append_new (l : List (K × V)) (k : K) (v : V)
    (hu : uniqKeys l) (hk : k ∉ keysOf l) : uniqKeys (l ++ [(k, v)]) := by
  unfold uniqKeys at *
  have : keysOf (l ++ [(k, v)]) = keysOf l ++ [k] := by
    simp [keysOf]
  rw [this]
  simpa [List.nodup_append] using ⟨hu, fun h => hk h⟩

theorem hashBrown_foldl_insert (l : List (K × V)) (acc : List (K × V))
    (hd : ∀ p ∈ l, p.1 ∉ keysOf acc) (hu : uniqKeys l) :
    (l.foldl (fun a p => (HashBrown.insert a p.1 p.2).2)
      (⟨acc⟩ : HashBrown K V)).pairs = acc ++ l := by
  induction l generalizing acc with
  | nil => simp
  | cons p rest ih =>
    obtain ⟨k, v⟩ := p
    have hu' : k ∉ keysOf rest ∧ uniqKeys rest := by
      simpa [uniqKeys, List.nodup_cons] using hu
    have hget : assocGet acc k = none :=
      (assocGet_eq_none_iff acc k).mpr (hd (k, v) (List.mem_cons_self _ _))
    have hstep : (HashBrown.insert (⟨acc⟩ : HashBrown K V) k v).2 =
        ⟨acc ++ [(k, v)]⟩ := by
      simp [HashBrown.insert, HashBrown.get, hget]
    have hd' : ∀ q ∈ rest, q.1 ∉ keysOf (acc ++ [(k, v)]) := by
      intro q hq
      have h1 : q.1 ∉ keysOf acc := hd q (List.mem_cons_of_mem _ hq)
      have h2 : q.1 ≠ k := by
        intro h
        exact hu'.1 (h ▸ List.mem_map.mpr ⟨q, hq, rfl⟩)
      simp [keysOf, List.mem_append]
      constructor
      · simpa [keysOf] using h1
      · exact h2
    calc (List.foldl (fun a p => (HashBrown.insert a p.1 p.2).2)
            (⟨acc⟩ : HashBrown K V) ((k, v) :: rest)).pairs
        = (List.foldl (fun a p => (HashBrown.insert a p.1 p.2).2)
            (⟨acc ++ [(k, v)]⟩ : HashBrown K V) rest).pairs := by
          rw [List.foldl_cons, hstep]
      _ = (acc ++ [(k, v)]) ++ rest := ih (acc ++ [(k, v)]) hd' hu'.2
      _ = acc ++ ((k, v) :: rest) := by simp

theorem ofList_pairs (l : List (K × V)) (hu : uniqKeys l) :
    (HashBrown.ofList l).pairs = l := by
  have := hashBrown_foldl_insert l [] (by simp) hu
  simpa [HashBrown.ofList, HashBrown.empty] using this

theorem insert_shape (m : HashMap K V) (k : K) (v : V) (r : Option V)
    (m' : HashMap K V) (heq : m.insert k v = some (r, m')) :
    m'.int ≠ HashMapInt.None ∧ (m.is_map = some true → m'.is_map = some true) := by
  obtain ⟨mi⟩ := m
  cases mi with
  | Map hb =>
      simp [HashMap.insert] at heq
      obtain ⟨h1, h2⟩ := heq
      subst h2
      exact ⟨by simp, by simp [HashMap.is_map]⟩
  | Vec vm =>
      simp only [HashMap.insert] at heq
      split at heq <;>
      · simp at heq
        obtain ⟨h1, h2⟩ := heq
        subst h2
        exact ⟨by simp, by simp [HashMap.is_map]⟩
  | None => simp [HashMap.insert] at heq

theorem insert_nocheck_shape (m : HashMap K V) (k : K) (v : V)
    (m' : HashMap K V) (heq : m.insert_nocheck k v = some m') :
    m'.int ≠ HashMapInt.None ∧ (m.is_map = some true → m'.is_map = some true) := by
  obtain ⟨mi⟩ := m
  cases mi with
  | Map hb =>
      simp [HashMap.insert_nocheck] at heq
      subst heq
      exact ⟨by simp, by simp [HashMap.is_map]⟩
  | Vec vm =>
      simp [HashMap.insert_nocheck] at heq
      subst heq
      exact ⟨by simp, by simp [HashMap.is_map]⟩
  | None => simp [HashMap.insert_nocheck] at heq

theorem remove_shape (m : HashMap K V) (k : K) (r : Option V)
    (m' : HashMap K V) (heq : m.remove k = some (r, m')) :
    m'.int ≠ HashMapInt.None ∧ (m.is_map = some true → m'.is_map = some true) := by
  obtain ⟨mi⟩ := m
  cases mi with
  | Map hb =>
      simp [HashMap.remove] at heq
      obtain ⟨h1, h2⟩ := heq
      subst h2
      exact ⟨by simp, by simp [HashMap.is_map]⟩
  | Vec vm =>
      simp [HashMap.remove] at heq
      obtain ⟨h1, h2⟩ := heq
      subst h2
      exact ⟨by simp, by simp [HashMap.is_map]⟩
  | None => simp [HashMap.remove] at heq

theorem retain_shape (m : HashMap K V) (f : K → V → Bool)
    (m' : HashMap K V) (heq : m.retain f = some m') :
    m'.int ≠ HashMapInt.None ∧ (m.is_map = some true → m'.is_map = some true) := by
  obtain ⟨mi⟩ := m
  cases mi with
  | Map hb =>
      simp [HashMap.retain] at heq
      subst heq
      exact ⟨by simp, by simp [HashMap.is_map]⟩
  | Vec vm =>
      simp [HashMap.retain] at heq
      subst heq
      exact ⟨by simp, by simp [HashMap.is_map]⟩
  | None => simp [HashMap.retain] at heq

theorem clear_shape (m : HashMap K V) (m' : HashMap K V)
    (heq : m.clear = some m') :
    m'.int ≠ HashMapInt.None ∧ (m.is_map = some true → m'.is_map = some true) := by
  obtain ⟨mi⟩ := m
  cases mi with
  | Map hb =>
      simp [HashMap.clear] at heq
      subst heq
      exact ⟨by simp, by simp [HashMap.is_map]⟩
  | Vec vm =>
      simp [HashMap.clear] at heq
      subst heq
      exact ⟨by simp, by simp [HashMap.is_map]⟩
  | None => simp [HashMap.clear] at heq

theorem drain_shape (m : HashMap K V) (n : Nat) (ys : List (K × V))
    (m' : HashMap K V) (heq : m.drain_take n = some (ys, m')) :
    m'.int ≠ HashMapInt.None ∧ (m.is_map = some true → m'.is_map = some true) := by
  obtain ⟨mi⟩ := m
  cases mi with
  | Map hb =>
      simp [HashMap.drain_take] at heq
      obtain ⟨h1, h2⟩ := heq
      subst h2
      exact ⟨by simp, by simp [HashMap.is_map]⟩
  | Vec vm =>
      simp [HashMap.drain_take] at heq
      obtain ⟨h1, h2⟩ := heq
      subst h2
      exact ⟨by simp, by simp [HashMap.is_map]⟩
  | None => simp [HashMap.drain_take] at heq

theorem entry_or_insert_shape (m : HashMap K V) (k : K) (d : V) (v : V)
    (m' : HashMap K V) (heq : m.entry_or_insert k d = some (v, m')) :
    m'.int ≠ HashMapInt.None ∧ (m.is_map = some true → m'.is_map = some true) := by
  obtain ⟨mi⟩ := m
  cases mi with
  | Map hb =>
      simp only [HashMap.entry_or_insert, HashMap.entry, Option.bind_some] at heq
      split at heq
      · rcases hv : hb.get k with _ | v0
        · simp [Entry.or_insert, hv] at heq
        · simp [Entry.or_insert, hv] at heq
          obtain ⟨h1, h2⟩ := heq
          subst h2
          exact ⟨by simp, by simp [HashMap.is_map]⟩
      · simp [Entry.or_insert] at heq
        obtain ⟨h1, h2⟩ := heq
        subst h2
        exact ⟨by simp, by simp [HashMap.is_map]⟩
  | Vec vm =>
      simp only [HashMap.entry_or_insert, HashMap.entry, Option.bind_some] at heq
      split at heq
      · rcases hv : vm.get k with _ | v0
        · simp [Entry.or_insert, hv] at heq
        · simp [Entry.or_insert, hv] at heq
          obtain ⟨h1, h2⟩ := heq
          subst h2
          exact ⟨by simp, by simp [HashMap.is_map]⟩
      · simp [Entry.or_insert] at heq
        obtain ⟨h1, h2⟩ := heq
        subst h2
        exact ⟨by simp, by simp [HashMap.is_map]⟩
  | None => simp [HashMap.entry_or_insert, HashMap.entry] at heq

theorem entry_and_modify_or_insert_shape (m : HashMap K V) (k : K)
    (f : V → V) (d : V) (v : V) (m' : HashMap K V)
    (heq : m.entry_and_modify_or_insert k f d = some (v, m')) :
    m'.int ≠ HashMapInt.None ∧ (m.is_map = some true → m'.is_map = some true) := by
  obtain ⟨mi⟩ := m
  cases mi with
  | Map hb =>
      simp only [HashMap.entry_and_modify_or_insert, HashMap.entry,
        Option.bind_some] at heq
      split at heq
      · rcases hv : assocGet (assocModify hb.pairs k f) k with _ | v0
        · simp [Entry.and_modify, Entry.or_insert, HashBrown.get, hv] at heq
        · simp [Entry.and_modify, Entry.or_insert, HashBrown.get, hv] at heq
          obtain ⟨h1, h2⟩ := heq
          subst h2
          exact ⟨by simp, by simp [HashMap.is_map]⟩
      · simp [Entry.and_modify, Entry.or_insert] at heq
        obtain ⟨h1, h2⟩ := heq
        subst h2
        exact ⟨by simp, by simp [HashMap.is_map]⟩
  | Vec vm =>
      simp only [HashMap.entry_and_modify_or_insert, HashMap.entry,
        Option.bind_some] at heq
      split at heq
      · rcases hv : assocGet (assocModify vm.pairs k f) k with _ | v0
        · simp [Entry.and_modify, Entry.or_insert, VecMap.get, hv] at heq
        · simp [Entry.and_modify, Entry.or_insert, VecMap.get, hv] at heq
          obtain ⟨h1, h2⟩ := heq
          subst h2
          exact ⟨by simp, by simp [HashMap.is_map]⟩
      · simp [Entry.and_modify, Entry.or_insert] at heq
        obtain ⟨h1, h2⟩ := heq
        subst h2
        exact ⟨by simp, by simp [HashMap.is_map]⟩
  | None => simp [HashMap.entry_and_modify_or_insert, HashMap.entry] at heq

theorem step_shape (m m' : HashMap K V) (h : Step m m') :
    m'.int ≠ HashMapInt.None ∧ (m.is_map = some true → m'.is_map = some true) := by
  cases h with
  | insert k v r heq => exact insert_shape _ k v r _ heq
  | insert_nocheck k v heq => exact insert_nocheck_shape _ k v _ heq
  | remove k r heq => exact remove_shape _ k r _ heq
  | retain f heq => exact retain_shape _ f _ heq
  | clear heq => exact clear_shape _ _ heq
  | drain n ys heq => exact drain_shape _ n ys _ heq
  | entry_or_insert k d v heq => exact entry_or_insert_shape _ k d v _ heq
  | entry_and_modify_or_insert k f d v heq =>
      exact entry_and_modify_or_insert_shape _ k f d v _ heq

theorem init_ok (m : HashMap K V) (h : Init m) : m.int ≠ HashMapInt.None := by
  cases h with
  | new => simp [HashMap.new]
  | with_capacity c =>
      by_cases hc : c > VEC_LIMIT_UPPER <;> simp [HashMap.with_capacity, hc]
  | vec_with_capacity c => simp [HashMap.vec_with_capacity]
  | with_hasher => simp [HashMap.with_hasher]
  | with_capacity_and_hasher c => simp [HashMap.with_capacity_and_hasher]

/-- Zero or more successful public operations. -/
inductive Steps : HashMap K V → HashMap K V → Prop where
  | refl (m : HashMap K V) : Steps m m
  | tail {m₁ m₂ m₃ : HashMap K V} : Steps m₁ m₂ → Step m₂ m₃ → Steps m₁ m₃

/-- C3: after every public constructor and every successful public
operation, the container's internal tagged state is `Vec` or `Map`, never
the transient placeholder `HashMapInt.None`; hence every reachable state
makes the `unreachable!()` match arms dead. -/
theorem reachable_state_never_transitional (m : HashMap K V)
    (h : Reachable m) : m.int ≠ HashMapInt.None := by
  cases h with
  | init m hi => exact init_ok m hi
  | step m₀ m hr hs => exact (step_shape m₀ m hs).1

/-- Witness for C3 at the freshly constructed container. -/
theorem reachable_state_never_transitional_witness :
    (HashMap.new : HashMap Nat Nat).int ≠ HashMapInt.None :=
  reachable_state_never_transitional HashMap.new
    (Reachable.init HashMap.new Init.new)

/-- C4: migration is monotonic and one-directional — once a container's
backend is `Map` (`is_map() == true`), no sequence of public operations
(insert, `insert_nocheck`, remove, retain, clear, drain, entry
insertions) ever makes it `Vec` again. -/
theorem once_hashed_never_linear (m m' : HashMap K V)
    (hm : m.is_map = some true) (hs : Steps m m') : m'.is_map = some true := by
  induction hs with
  | refl => exact hm
  | tail h12 h23 ih => exact (step_shape _ _ h23).2 ih

/-- Witness for C4: a one-entry hashed container stays hashed after its
only entry is removed. -/
theorem once_hashed_never_linear_witness :
    (⟨.Map ⟨[]⟩⟩ : HashMap Nat Nat).is_map = some true :=
  once_hashed_never_linear (⟨.Map ⟨[(1, 2)]⟩⟩ : HashMap Nat Nat) ⟨.Map ⟨[]⟩⟩
    (by decide)
    (Steps.tail (Steps.refl _) (Step.remove 1 (some 2) (by decide)))

/-- C5 counterexample: the claim says `with_hasher(h)` and
`with_capacity_and_hasher(n, h)` with `n ≤ 32` yield a Linear container;
in the code both constructors always install the hash backend. -/
theorem with_hasher_not_linear :
    ¬ ((HashMap.with_hasher : HashMap Nat Nat).is_vec = some true) ∧
    ¬ ((HashMap.with_capacity_and_hasher 0 : HashMap Nat Nat).is_vec = some true) := by
  decide

/-- C5 (amended): every constructor creates an empty container; `new()`
and `vec_with_capacity(n)` always choose the Linear backend;
`with_capacity(n)` chooses Linear exactly when `n ≤ 32` and Hashed when
`n > 32`; `with_hasher(h)` and `with_capacity_and_hasher(n, h)` always
choose the Hashed backend, for every `n`. -/
theorem constructor_backend_choice (c : Nat) :
    (HashMap.new : HashMap K V).is_vec = some true ∧
    (HashMap.new : HashMap K V).is_empty = some true ∧
    (HashMap.vec_with_capacity c : HashMap K V).is_vec = some true ∧
    (HashMap.vec_with_capacity c : HashMap K V).is_empty = some true ∧
    (HashMap.with_capacity c : HashMap K V).is_vec =
      some (decide (c ≤ VEC_LIMIT_UPPER)) ∧
    (HashMap.with_capacity c : HashMap K V).is_empty = some true ∧
    (HashMap.with_hasher : HashMap K V).is_map = some true ∧
    (HashMap.with_hasher : HashMap K V).is_empty = some true ∧
    (HashMap.with_capacity_and_hasher c : HashMap K V).is_map = some true ∧
    (HashMap.with_capacity_and_hasher c : HashMap K V).is_empty = some true := by
  refine ⟨by simp [HashMap.new, VecMap.new, HashMap.is_vec],
    by simp [HashMap.new, VecMap.new, HashMap.is_empty],
    by simp [HashMap.vec_with_capacity, VecMap.with_capacity, HashMap.is_vec],
    by simp [HashMap.vec_with_capacity, VecMap.with_capacity, HashMap.is_empty],
    ?_, ?_,
    by simp [HashMap.with_hasher, HashBrown.empty, HashMap.is_map],
    by simp [HashMap.with_hasher, HashBrown.empty, HashMap.is_empty],
    by simp [HashMap.with_capacity_and_hasher, HashBrown.with_capacity, HashMap.is_map],
    by simp [HashMap.with_capacity_and_hasher, HashBrown.with_capacity, HashMap.is_empty]⟩
  · by_cases hc : VEC_LIMIT_UPPER < c
    · have : ¬ c ≤ VEC_LIMIT_UPPER := by omega
      simp [HashMap.with_capacity, hc, HashBrown.with_capacity, HashMap.is_vec, this]
    · have : c ≤ VEC_LIMIT_UPPER := by omega
      simp [HashMap.with_capacity, hc, VecMap.with_capacity, HashMap.is_vec, this]
  · by_cases hc : VEC_LIMIT_UPPER < c <;>
      simp [HashMap.with_capacity, hc, HashBrown.with_capacity,
        VecMap.with_capacity, HashMap.is_empty]

/-- Witness for C5 at capacity 10. -/
theorem constructor_backend_choice_witness :
    (HashMap.new : HashMap Nat Nat).is_vec = some true ∧
    (HashMap.new : HashMap Nat Nat).is_empty = some true ∧
    (HashMap.vec_with_capacity 10 : HashMap Nat Nat).is_vec = some true ∧
    (HashMap.vec_with_capacity 10 : HashMap Nat Nat).is_empty = some true ∧
    (HashMap.with_capacity 10 : HashMap Nat Nat).is_vec =
      some (decide (10 ≤ VEC_LIMIT_UPPER)) ∧
    (HashMap.with_capacity 10 : HashMap Nat Nat).is_empty = some true ∧
    (HashMap.with_hasher : HashMap Nat Nat).is_map = some true ∧
    (HashMap.with_hasher : HashMap Nat Nat).is_empty = some true ∧
    (HashMap.with_capacity_and_hasher 10 : HashMap Nat Nat).is_map = some true ∧
    (HashMap.with_capacity_and_hasher 10 : HashMap Nat Nat).is_empty = some true :=
  constructor_backend_choice 10

/-- C9: indexing returns the stored value exactly when the key is present
and panics with the message "no entry found for key" when absent, while
`get`, `remove` and `insert` signal absence only through an option-valued
return and never panic on a concrete backend state. -/
theorem index_panics_get_returns_option (m : HashMap K V) (k : K) (v : V)
    (h : m.ok) :
    (∀ w, m.getOp k = some (some w) → m.index k = some (Except.ok w)) ∧
    (m.getOp k = some none →
      m.index k = some (Except.error "no entry found for key")) ∧
    (m.getOp k).isSome = true ∧
    (m.remove k).isSome = true ∧
    (m.insert k v).isSome = true := by
  obtain ⟨mi⟩ := m
  cases mi with
  | Map hb =>
      refine ⟨?_, ?_, ?_, ?_, ?_⟩
      · intro w hw
        simp [HashMap.getOp] at hw
        simp [HashMap.index, HashMap.getOp, hw]
      · intro hw
        simp [HashMap.getOp] at hw
        simp [HashMap.index, HashMap.getOp, hw]
      · simp [HashMap.getOp]
      · simp [HashMap.remove]
      · simp [HashMap.insert]
  | Vec vm =>
      refine ⟨?_, ?_, ?_, ?_, ?_⟩
      · intro w hw
        simp [HashMap.getOp] at hw
        simp [HashMap.index, HashMap.getOp, hw]
      · intro hw
        simp [HashMap.getOp] at hw
        simp [HashMap.index, HashMap.getOp, hw]
      · simp [HashMap.getOp]
      · simp [HashMap.remove]
      · simp only [HashMap.insert]
        split <;> simp
  | None => exact absurd rfl h

/-- Witness for C9 on a one-entry linear container, probing both a present
and an absent key through the same statement. -/
theorem index_panics_get_returns_option_witness :
    (⟨.Vec ⟨[(1, 10)]⟩⟩ : HashMap Nat Nat).ok ∧
    ((∀ w, (⟨.Vec ⟨[(1, 10)]⟩⟩ : HashMap Nat Nat).getOp 2 = some (some w) →
        (⟨.Vec ⟨[(1, 10)]⟩⟩ : HashMap Nat Nat).index 2 = some (Except.ok w)) ∧
      ((⟨.Vec ⟨[(1, 10)]⟩⟩ : HashMap Nat Nat).getOp 2 = some none →
        (⟨.Vec ⟨[(1, 10)]⟩⟩ : HashMap Nat Nat).index 2 =
          some (Except.error "no entry found for key")) ∧
      ((⟨.Vec ⟨[(1, 10)]⟩⟩ : HashMap Nat Nat).getOp 2).isSome = true ∧
      ((⟨.Vec ⟨[(1, 10)]⟩⟩ : HashMap Nat Nat).remove 2).isSome = true ∧
      ((⟨.Vec ⟨[(1, 10)]⟩⟩ : HashMap Nat Nat).insert 2 20).isSome = true) :=
  ⟨by decide, index_panics_get_returns_option _ 2 20 (by decide)⟩

/-- C1 counterexample: a Linear container holding exactly 32 entries,
built by 32 inserts from `new()`, with key 0 present; `insert(0, 99)`
cannot make the element count exceed 32 (it returns the previous value
and leaves the length at 32), yet the backend switches to Hashed — so
migration is not triggered "exactly when the insertion would make the
linear element count exceed 32". -/
theorem insert_existing_key_at_limit_migrates :
    ((insertAll (HashMap.new : HashMap Nat Nat)
        ((List.range 32).map (fun i => (i, i)))).bind
      (fun m => (m.insert 0 99).map
        (fun p => (m.is_vec, m.contains_key 0, m.lenOp, p.1, p.2.is_map, p.2.lenOp))))
      = some (some true, some true, some 32, some 0, some true, some 32) := by
  decide

/-- C1 (amended): for a container whose active backend is Linear,
`insert(k, v)` switches the backend to Hashed exactly when the pre-insert
linear element count has reached the threshold 32 (`len >= 32`),
regardless of which key is inserted and of whether it is already present;
a freshly created container reports `is_vec() == true`, still does after
inserting 32 distinct keys, and reports `is_map() == true` after a 33rd
distinct key. -/
theorem insert_migrates_iff_len_reached (m : HashMap K V) (vm : VecMap K V)
    (k : K) (v : V) (h : m = ⟨HashMapInt.Vec vm⟩) :
    (m.insert k v).bind (fun p => p.2.is_map) =
      some (decide (VEC_LIMIT_UPPER ≤ vm.len)) ∧
    (insertAll (HashMap.new : HashMap Nat Nat)
        ((List.range 32).map (fun i => (i + 1, i)))).bind HashMap.is_vec =
      some true ∧
    (insertAll (HashMap.new : HashMap Nat Nat)
        ((List.range 33).map (fun i => (i + 1, i)))).bind HashMap.is_map =
      some true := by
  subst h
  refine ⟨?_, by decide, by decide⟩
  by_cases hlen : VEC_LIMIT_UPPER ≤ vm.len
  · simp [HashMap.insert, hlen, HashMap.is_map]
  · rcases hg : vm.get k with _ | v0 <;>
      simp [HashMap.insert, hlen, VecMap.insert, hg, HashMap.is_map]

/-- Witness for C1 on the freshly created (empty, Linear) container. -/
theorem insert_migrates_iff_len_reached_witness :
    ((HashMap.new : HashMap Nat Nat) = ⟨HashMapInt.Vec VecMap.new⟩) ∧
    (((HashMap.new : HashMap Nat Nat).insert 5 6).bind (fun p => p.2.is_map) =
      some (decide (VEC_LIMIT_UPPER ≤ (VecMap.new : VecMap Nat Nat).len)) ∧
    (insertAll (HashMap.new : HashMap Nat Nat)
        ((List.range 32).map (fun i => (i + 1, i)))).bind HashMap.is_vec =
      some true ∧
    (insertAll (HashMap.new : HashMap Nat Nat)
        ((List.range 33).map (fun i => (i + 1, i)))).bind HashMap.is_map =
      some true) :=
  ⟨rfl, insert_migrates_iff_len_reached HashMap.new VecMap.new 5 6 rfl⟩

/-- A Linear container holding 33 entries, past the threshold. -/
def vec33 : HashMap Nat Nat := ⟨.Vec ⟨(List.range 33).map (fun i => (i, i))⟩⟩

/-- C10: `entry`-based insertion (`entry(k).or_insert(d)`, also preceded
by `and_modify`) and `insert_nocheck` never change the active backend —
they do not migrate a Linear container even when they raise the element
count past the threshold, so a container can report `is_vec() == true`
while `len() > 32`; only `insert` migrates. -/
theorem entry_and_insert_nocheck_preserve_backend (m : HashMap K V)
    (k : K) (v d : V) (f : V → V) (h : m.ok) :
    (m.insert_nocheck k v).bind HashMap.is_vec = m.is_vec ∧
    (m.entry_or_insert k d).bind (fun p => p.2.is_vec) = m.is_vec ∧
    (m.entry_and_modify_or_insert k f d).bind (fun p => p.2.is_vec) = m.is_vec := by
  obtain ⟨mi⟩ := m
  cases mi with
  | Map hb =>
      refine ⟨by simp [HashMap.insert_nocheck, HashMap.is_vec], ?_, ?_⟩
      · rcases hv : hb.get k with _ | v0 <;>
          simp [HashMap.entry_or_insert, HashMap.entry, hv, Entry.or_insert,
            HashMap.is_vec]
      · rcases hv : hb.get k with _ | v0
        · simp [HashMap.entry_and_modify_or_insert, HashMap.entry, hv,
            Entry.and_modify, Entry.or_insert, HashMap.is_vec]
        · have hv' : assocGet hb.pairs k = some v0 := hv
          simp [HashMap.entry_and_modify_or_insert, HashMap.entry, hv,
            Entry.and_modify, Entry.or_insert, HashBrown.get,
            assocGet_modify_self, hv', HashMap.is_vec]
  | Vec vm =>
      refine ⟨by simp [HashMap.insert_nocheck, HashMap.is_vec], ?_, ?_⟩
      · rcases hv : vm.get k with _ | v0 <;>
          simp [HashMap.entry_or_insert, HashMap.entry, hv, Entry.or_insert,
            HashMap.is_vec]
      · rcases hv : vm.get k with _ | v0
        · simp [HashMap.entry_and_modify_or_insert, HashMap.entry, hv,
            Entry.and_modify, Entry.or_insert, HashMap.is_vec]
        · have hv' : assocGet vm.pairs k = some v0 := hv
          simp [HashMap.entry_and_modify_or_insert, HashMap.entry, hv,
            Entry.and_modify, Entry.or_insert, VecMap.get,
            assocGet_modify_self, hv', HashMap.is_vec]
  | None => exact absurd rfl h

/-- Witness for C10: a Linear container of 33 entries (built with
`insert_nocheck` from `vec_with_capacity`) reports `is_vec` with
`len() == 33 > 32` and stays Linear through all three operations. -/
theorem entry_and_insert_nocheck_preserve_backend_witness :
    insertAllNocheck (HashMap.vec_with_capacity 64)
        ((List.range 33).map (fun i => (i, i))) = some vec33 ∧
    vec33.ok ∧ vec33.is_vec = some true ∧ vec33.lenOp = some 33 ∧
    ((vec33.insert_nocheck 100 0).bind HashMap.is_vec = vec33.is_vec ∧
      (vec33.entry_or_insert 100 7).bind (fun p => p.2.is_vec) = vec33.is_vec ∧
      (vec33.entry_and_modify_or_insert 100 (fun x => x + 1) 7).bind
        (fun p => p.2.is_vec) = vec33.is_vec) :=
  ⟨by decide, by decide, by decide, by decide,
    entry_and_insert_nocheck_preserve_backend vec33 100 0 7 (fun x => x + 1)
      (by decide)⟩

/-- C8: drain removes every pair — the iterator yields a prefix of the
stored pairs (the consumed part), and once the iterator is dropped, after
any number of consumed elements, the container is empty, its active
backend unchanged. -/
theorem drain_leaves_empty (m : HashMap K V) (n : Nat) (h : m.ok) :
    ((m.drain_take n).map Prod.snd).bind HashMap.is_empty = some true ∧
    ((m.drain_take n).map Prod.snd).bind HashMap.is_map = m.is_map ∧
    (m.drain_take n).map Prod.fst = (m.int.pairsOf).map (fun l => l.take n) := by
  obtain ⟨mi⟩ := m
  cases mi with
  | Map hb =>
      exact ⟨by simp [HashMap.drain_take, HashMap.is_empty, HashBrown.clear],
        by simp [HashMap.drain_take, HashMap.is_map, HashBrown.clear],
        by simp [HashMap.drain_take, HashMapInt.pairsOf]⟩
  | Vec vm =>
      exact ⟨by simp [HashMap.drain_take, HashMap.is_empty, VecMap.clear],
        by simp [HashMap.drain_take, HashMap.is_map, VecMap.clear],
        by simp [HashMap.drain_take, HashMapInt.pairsOf]⟩
  | None => exact absurd rfl h

/-- A two-pair Linear container, for the drain scenario. -/
def two_pairs : HashMap Nat Nat := ⟨.Vec ⟨[(1, 10), (2, 20)]⟩⟩

/-- Witness for C8: draining a 2-pair container and consuming only one
element still leaves it empty, backend unchanged. -/
theorem drain_leaves_empty_witness :
    two_pairs.ok ∧
    (((two_pairs.drain_take 1).map Prod.snd).bind HashMap.is_empty = some true ∧
      ((two_pairs.drain_take 1).map Prod.snd).bind HashMap.is_map =
        two_pairs.is_map ∧
      (two_pairs.drain_take 1).map Prod.fst =
        (two_pairs.int.pairsOf).map (fun l => l.take 1)) :=
  ⟨by decide, drain_leaves_empty two_pairs 1 (by decide)⟩

/-- A Linear container holding exactly 32 entries (at the threshold). -/
def vecAtLimit : HashMap Nat Nat := ⟨.Vec ⟨(List.range 32).map (fun i => (i, i))⟩⟩

/-- C2: `insert(k, v)` returns `Some` of the previous value exactly when
`k` was already present — in which case only the value is replaced, the
stored key sequence (key identity) being left unchanged — and `None`
exactly when `k` was new; identically on both backends and on the insert
call performing the migration. -/
theorem insert_returns_previous_value (m : HashMap K V) (k : K) (v : V)
    (g : Option V) (hwf : m.wf) (hg : m.getOp k = some g) :
    (m.insert k v).map Prod.fst = some g ∧
    (m.insert k v).bind (fun p => p.2.getOp k) = some (some v) ∧
    (g.isSome = true →
      (m.insert k v).bind (fun p => (p.2.int.pairsOf).map keysOf) =
        (m.int.pairsOf).map keysOf) := by
  obtain ⟨mi⟩ := m
  cases mi with
  | Map hb =>
      simp [HashMap.wf] at hwf
      simp [HashMap.getOp] at hg
      have hga : assocGet hb.pairs k = g := hg
      cases g with
      | none =>
          refine ⟨?_, ?_, by simp⟩
          · simp [HashMap.insert, HashBrown.insert, HashBrown.get, hga]
          · simp [HashMap.insert, HashBrown.insert, HashBrown.get, HashMap.getOp,
              hga, assocGet_append_single _ _ v hga]
      | some v0 =>
          refine ⟨?_, ?_, ?_⟩
          · simp [HashMap.insert, HashBrown.insert, HashBrown.get, hga]
          · simp [HashMap.insert, HashBrown.insert, HashBrown.get, HashMap.getOp,
              hga, assocGet_update_eq _ _ v v0 hga]
          · intro _
            simp [HashMap.insert, HashBrown.insert, HashBrown.get, hga,
              HashMapInt.pairsOf, keysOf_update]
  | Vec vm =>
      simp [HashMap.wf] at hwf
      simp [HashMap.getOp] at hg
      have hga : assocGet vm.pairs k = g := hg
      by_cases hlen : VEC_LIMIT_UPPER ≤ vm.len
      · have hof : (HashBrown.ofList vm.pairs).pairs = vm.pairs :=
          ofList_pairs vm.pairs hwf
        cases g with
        | none =>
            refine ⟨?_, ?_, by simp⟩
            · simp [HashMap.insert, hlen, HashBrown.insert, HashBrown.get,
                hof, hga]
            · simp [HashMap.insert, hlen, HashBrown.insert, HashBrown.get,
                HashMap.getOp, hof, hga, assocGet_append_single _ _ v hga]
        | some v0 =>
            refine ⟨?_, ?_, ?_⟩
            · simp [HashMap.insert, hlen, HashBrown.insert, HashBrown.get,
                hof, hga]
            · simp [HashMap.insert, hlen, HashBrown.insert, HashBrown.get,
                HashMap.getOp, hof, hga, assocGet_update_eq _ _ v v0 hga]
            · intro _
              simp [HashMap.insert, hlen, HashBrown.insert, HashBrown.get,
                HashMapInt.pairsOf, hof, hga, keysOf_update]
      · cases g with
        | none =>
            refine ⟨?_, ?_, by simp⟩
            · simp [HashMap.insert, hlen, VecMap.insert, VecMap.get, hga]
            · simp [HashMap.insert, hlen, VecMap.insert, VecMap.get,
                HashMap.getOp, hga, assocGet_append_single _ _ v hga]
        | some v0 =>
            refine ⟨?_, ?_, ?_⟩
            · simp [HashMap.insert, hlen, VecMap.insert, VecMap.get, hga]
            · simp [HashMap.insert, hlen, VecMap.insert, VecMap.get,
                HashMap.getOp, hga, assocGet_update_eq _ _ v v0 hga]
            · intro _
              simp [HashMap.insert, hlen, VecMap.insert, VecMap.get, hga,
                HashMapInt.pairsOf, keysOf_update]
  | None => simp [HashMap.wf] at hwf

/-- Witness for C2 on the migrating insert: inserting an already-present
key into a Linear container at the threshold returns the previous value,
stores the new one, and keeps the stored key sequence unchanged. -/
theorem insert_returns_previous_value_witness :
    (vecAtLimit.wf ∧ vecAtLimit.getOp 0 = some (some 0)) ∧
    ((vecAtLimit.insert 0 99).map Prod.fst = some (some 0) ∧
      (vecAtLimit.insert 0 99).bind (fun p => p.2.getOp 0) = some (some 99) ∧
      ((some 0 : Option Nat).isSome = true →
        (vecAtLimit.insert 0 99).bind (fun p => (p.2.int.pairsOf).map keysOf) =
          (vecAtLimit.int.pairsOf).map keysOf)) :=
  ⟨⟨by decide, by decide⟩,
    insert_returns_previous_value vecAtLimit 0 99 (some 0) (by decide) (by decide)⟩

/-- C7: `entry(k).or_insert(d)` yields the existing value (container
unchanged) when `k` is present and otherwise inserts `d` and yields it;
`and_modify(f)` applies `f` to the value in place and remains Occupied
when the entry is Occupied, and is an identity passthrough when Vacant;
hence `entry(k).and_modify(f).or_insert(d)` yields `d` on a fresh key and
`f` of the stored value on a present key. -/
theorem entry_or_insert_and_modify_spec (m : HashMap K V) (k : K)
    (f : V → V) (d : V) (g : Option V) (hg : m.getOp k = some g) :
    (∀ v0, g = some v0 →
      m.entry_or_insert k d = some (v0, m) ∧
      (m.entry_and_modify_or_insert k f d).map Prod.fst = some (f v0) ∧
      (m.entry_and_modify_or_insert k f d).bind (fun p => p.2.getOp k) =
        some (some (f v0)) ∧
      (m.entry_and_modify_or_insert k f d).bind (fun p => p.2.is_map) =
        m.is_map ∧
      (m.entry k).map (fun e => (e.and_modify f).isOccupied) = some true) ∧
    (g = none →
      (m.entry_or_insert k d).map Prod.fst = some d ∧
      (m.entry_or_insert k d).bind (fun p => p.2.getOp k) = some (some d) ∧
      (m.entry_and_modify_or_insert k f d).map Prod.fst = some d ∧
      (m.entry_and_modify_or_insert k f d).bind (fun p => p.2.getOp k) =
        some (some d) ∧
      (m.entry k).map (fun e => e.and_modify f) = m.entry k) := by
  obtain ⟨mi⟩ := m
  cases mi with
  | Map hb =>
      simp [HashMap.getOp] at hg
      have hga : assocGet hb.pairs k = g := hg
      constructor
      · rintro v0 rfl
        refine ⟨?_, ?_, ?_, ?_, ?_⟩
        · simp [HashMap.entry_or_insert, HashMap.entry, HashBrown.get, hga,
            Entry.or_insert]
        · simp [HashMap.entry_and_modify_or_insert, HashMap.entry,
            HashBrown.get, hga, Entry.and_modify, Entry.or_insert,
            assocGet_modify_self]
        · simp [HashMap.entry_and_modify_or_insert, HashMap.entry,
            HashBrown.get, hga, Entry.and_modify, Entry.or_insert,
            assocGet_modify_self, HashMap.getOp]
        · simp [HashMap.entry_and_modify_or_insert, HashMap.entry,
            HashBrown.get, hga, Entry.and_modify, Entry.or_insert,
            assocGet_modify_self, HashMap.is_map]
        · simp [HashMap.entry, HashBrown.get, hga, Entry.and_modify,
            Entry.isOccupied]
      · rintro rfl
        refine ⟨?_, ?_, ?_, ?_, ?_⟩
        · simp [HashMap.entry_or_insert, HashMap.entry, HashBrown.get, hga,
            Entry.or_insert]
        · simp [HashMap.entry_or_insert, HashMap.entry, HashBrown.get, hga,
            Entry.or_insert, HashMap.getOp, assocGet_append_single _ _ d hga]
        · simp [HashMap.entry_and_modify_or_insert, HashMap.entry,
            HashBrown.get, hga, Entry.and_modify, Entry.or_insert]
        · simp [HashMap.entry_and_modify_or_insert, HashMap.entry,
            HashBrown.get, hga, Entry.and_modify, Entry.or_insert,
            HashMap.getOp, assocGet_append_single _ _ d hga]
        · simp [HashMap.entry, HashBrown.get, hga, Entry.and_modify]
  | Vec vm =>
      simp [HashMap.getOp] at hg
      have hga : assocGet vm.pairs k = g := hg
      constructor
      · rintro v0 rfl
        refine ⟨?_, ?_, ?_, ?_, ?_⟩
        · simp [HashMap.entry_or_insert, HashMap.entry, VecMap.get, hga,
            Entry.or_insert]
        · simp [HashMap.entry_and_modify_or_insert, HashMap.entry,
            VecMap.get, hga, Entry.and_modify, Entry.or_insert,
            assocGet_modify_self]
        · simp [HashMap.entry_and_modify_or_insert, HashMap.entry,
            VecMap.get, hga, Entry.and_modify, Entry.or_insert,
            assocGet_modify_self, HashMap.getOp]
        · simp [HashMap.entry_and_modify_or_insert, HashMap.entry,
            VecMap.get, hga, Entry.and_modify, Entry.or_insert,
            assocGet_modify_self, HashMap.is_map]
        · simp [HashMap.entry, VecMap.get, hga, Entry.and_modify,
            Entry.isOccupied]
      · rintro rfl
        refine ⟨?_, ?_, ?_, ?_, ?_⟩
        · simp [HashMap.entry_or_insert, HashMap.entry, VecMap.get, hga,
            Entry.or_insert]
        · simp [HashMap.entry_or_insert, HashMap.entry, VecMap.get, hga,
            Entry.or_insert, HashMap.getOp, assocGet_append_single _ _ d hga]
        · simp [HashMap.entry_and_modify_or_insert, HashMap.entry,
            VecMap.get, hga, Entry.and_modify, Entry.or_insert]
        · simp [HashMap.entry_and_modify_or_insert, HashMap.entry,
            VecMap.get, hga, Entry.and_modify, Entry.or_insert,
            HashMap.getOp, assocGet_append_single _ _ d hga]
        · simp [HashMap.entry, VecMap.get, hga, Entry.and_modify]
  | None => simp [HashMap.getOp] at hg

/-- Witness for C7: the counter idiom applied twice to the fresh key 7
yields 42 after the first application and 43 after the second. -/
theorem entry_or_insert_and_modify_spec_witness :
    ((HashMap.new : HashMap Nat Nat).getOp 7 = some none) ∧
    ((HashMap.new : HashMap Nat Nat).entry_and_modify_or_insert 7
        (fun x => x + 1) 42).map Prod.fst = some 42 ∧
    ((HashMap.new : HashMap Nat Nat).entry_and_modify_or_insert 7
        (fun x => x + 1) 42).map Prod.snd =
      some (⟨.Vec ⟨[(7, 42)]⟩⟩ : HashMap Nat Nat) ∧
    ((⟨.Vec ⟨[(7, 42)]⟩⟩ : HashMap Nat Nat).getOp 7 = some (some 42)) ∧
    ((⟨.Vec ⟨[(7, 42)]⟩⟩ : HashMap Nat Nat).entry_and_modify_or_insert 7
        (fun x => x + 1) 42).map Prod.fst = some 43 :=
  ⟨by decide,
    ((entry_or_insert_and_modify_spec HashMap.new 7 (fun x => x + 1) 42 none
        (by decide)).2 rfl).2.2.1,
    by decide,
    by decide,
    ((entry_or_insert_and_modify_spec (⟨.Vec ⟨[(7, 42)]⟩⟩ : HashMap Nat Nat) 7
        (fun x => x + 1) 42 (some 42) (by decide)).1 42 rfl).2.1⟩

theorem assoc_found_eq (lb : List (K × V)) (p : K × V) :
    ((match assocGet lb p.1 with
      | some v2 => decide (p.2 = v2)
      | none => false) = true) ↔ assocGet lb p.1 = some p.2 := by
  rcases h : assocGet lb p.1 with _ | v2 <;> simp [h]
  constructor
  · intro h1
    exact h1.symm
  · intro h1
    exact h1.symm

theorem assoc_contained_symm (pa pb : List (K × V)) (hua : uniqKeys pa)
    (hub : uniqKeys pb) (hlen : pa.length = pb.length)
    (hab : ∀ p ∈ pa, assocGet pb p.1 = some p.2) :
    ∀ p ∈ pb, assocGet pa p.1 = some p.2 := by
  have hsub : keysOf pa ⊆ keysOf pb := by
    intro k hk
    obtain ⟨v, hv⟩ := (mem_keysOf_iff pa k).mp hk
    exact (mem_keysOf_iff pb k).mpr ⟨v, assocGet_mem _ _ _ (hab (k, v) hv)⟩
  have hperm : List.Perm (keysOf pa) (keysOf pb) := by
    refine (List.Nodup.subperm hua hsub).perm_of_length_le ?_
    simp [keysOf, hlen]
  intro p hp
  have hkb : p.1 ∈ keysOf pb := (mem_keysOf_iff pb p.1).mpr ⟨p.2, hp⟩
  have hka : p.1 ∈ keysOf pa := hperm.mem_iff.mpr hkb
  obtain ⟨v', hv'⟩ := (mem_keysOf_iff pa p.1).mp hka
  have h1 : assocGet pb p.1 = some v' := hab (p.1, v') hv'
  have h2 : assocGet pb p.1 = some p.2 := assocGet_of_mem pb p.1 p.2 hub hp
  have hvv : v' = p.2 := by
    rw [h1] at h2
    exact Option.some_injective _ h2
  rw [← hvv]
  exact assocGet_of_mem pa p.1 v' hua hv'

/-- C6: two containers compare equal (`PartialEq::eq`) exactly when they
have the same length and every key/value pair of either one is found with
an equal value in the other — independent of which backend each container
has. -/
theorem eq_iff_same_pairs (a b : HashMap K V) (pa pb : List (K × V))
    (hpa : a.int.pairsOf = some pa) (hpb : b.int.pairsOf = some pb)
    (hua : uniqKeys pa) (hub : uniqKeys pb) :
    (a.beq b = some true ↔
      (pa.length = pb.length ∧
        (∀ p ∈ pa, assocGet pb p.1 = some p.2) ∧
        (∀ p ∈ pb, assocGet pa p.1 = some p.2))) := by
  have hbeq : a.beq b =
      some (decide (pa.length = pb.length) &&
        pa.all (fun p => match assocGet pb p.1 with
          | some v2 => decide (p.2 = v2)
          | none => false)) := by
    simp only [HashMap.beq, hpa, hpb]
  rw [hbeq]
  simp only [Option.some.injEq, Bool.and_eq_true, decide_eq_true_eq,
    List.all_eq_true]
  constructor
  · rintro ⟨h1, h2⟩
    have h2' : ∀ p ∈ pa, assocGet pb p.1 = some p.2 := by
      intro p hp
      exact (assoc_found_eq pb p).mp (h2 p hp)
    exact ⟨h1, h2', assoc_contained_symm pa pb hua hub h1 h2'⟩
  · rintro ⟨h1, h2, h3⟩
    refine ⟨h1, ?_⟩
    intro p hp
    exact (assoc_found_eq pb p).mpr (h2 p hp)

/-- The 33 pairs (i, i), i < 33, as stored by a Hashed container built by
33 inserts (migration preserves the drained order). -/
def map33 : HashMap Nat Nat := ⟨.Map ⟨(List.range 33).map (fun i => (i, i))⟩⟩

/-- Witness for C6: the same 33 pairs, one container migrated to Hashed
by plain inserts and one forced to stay Linear, compare equal. -/
theorem eq_iff_same_pairs_witness :
    insertAll (HashMap.new : HashMap Nat Nat)
        ((List.range 33).map (fun i => (i, i))) = some map33 ∧
    map33.is_map = some true ∧ vec33.is_vec = some true ∧
    (map33.int.pairsOf = some ((List.range 33).map (fun i => (i, i))) ∧
      vec33.int.pairsOf = some ((List.range 33).map (fun i => (i, i))) ∧
      uniqKeys ((List.range 33).map (fun i => (i, i)))) ∧
    map33.beq vec33 = some true :=
  ⟨by decide, by decide, by decide, ⟨by decide, by decide, by decide⟩,
    (eq_iff_same_pairs map33 vec33
        ((List.range 33).map (fun i => (i, i)))
        ((List.range 33).map (fun i => (i, i)))
        (by decide) (by decide) (by decide) (by decide)).mpr
      ⟨rfl, by decide, by decide⟩⟩

end Halfbrown
